import Mathlib

/-!
Verification of the Graphics-Lab tank core (utils.js).

Shallow embedding over `ℝ` of the three core components of the repository:

* the Screen/Object Space Mapper (`project`, `unproject`, `unproject_vector`),
* the Tangent-Space Generator (`computeTangents`),
* the Articulated Transform Composer (`computeBarrelPivot`),

together with theorems settling the specification's testable properties.

Conventions of the source's matrix library (wgpu-matrix) used throughout:
`mat4` values are stored column-major; `vec4.transformMat4(v, m)` is the
standard matrix-vector product `m * v`; `mat4.translate(m, v)`,
`mat4.rotateY(m, a)` and `mat4.rotate(m, axis, a)` post-multiply `m` by the
elementary transform.  JavaScript `number` arithmetic is modelled by exact
real arithmetic, as the specification's properties are stated "in exact
arithmetic"; `Math.sqrt` is `Real.sqrt`.
-/

noncomputable section

open scoped Classical

namespace GraphicsLab

/-! ## Screen/Object Space Mapper (utils.js: project / unproject) -/

/-- Embedding of `project(p_obj, MVP, viewport)`: transform by `MVP`, divide
every component by the resulting `w` (`tmp[3]`), then apply the viewport
scale/offset to the first two components only
(`tmp[i] = (0.5*tmp[i] + 0.5) * viewport[i+2] + viewport[i]` for `i = 0, 1`). -/
def project (p_obj : Fin 4 → ℝ) (MVP : Matrix (Fin 4) (Fin 4) ℝ)
    (viewport : Fin 4 → ℝ) : Fin 4 → ℝ :=
  let tmp := MVP.mulVec p_obj
  let tmp2 := fun i => tmp i / tmp 3
  fun i => if (i : ℕ) < 2 then (0.5 * tmp2 i + 0.5) * viewport (i + 2) + viewport i
           else tmp2 i

/-- The viewport-undo loop at the head of `unproject`:
`tmp[i] = (2.0 * (tmp[i] - viewport[i])) / viewport[i+2] - 1.0` for `i = 0, 1`;
the remaining components pass through unchanged. -/
def winToNdc (p_win viewport : Fin 4 → ℝ) : Fin 4 → ℝ :=
  fun i => if (i : ℕ) < 2 then 2.0 * (p_win i - viewport i) / viewport (i + 2) - 1.0
           else p_win i

/-- Embedding of `unproject(p_win, MVP, viewport)`: undo the viewport mapping
on the first two components, transform by `MVP⁻¹` (`mat4.invert(MVP)`), then
divide by the resulting `w`. -/
def unproject (p_win : Fin 4 → ℝ) (MVP : Matrix (Fin 4) (Fin 4) ℝ)
    (viewport : Fin 4 → ℝ) : Fin 4 → ℝ :=
  let MVP_inv := MVP⁻¹
  let tmp := winToNdc p_win viewport
  let p_obj := MVP_inv.mulVec tmp
  fun i => p_obj i / p_obj 3

/-- Embedding of `unproject_vector(vec_win, MVP, viewport)`: project the
object-space origin `[0,0,0,1]`, add the screen-space delta to its first three
components, put `1` in the `w` slot, and unproject the result. -/
def unproject_vector (vec_win : Fin 3 → ℝ) (MVP : Matrix (Fin 4) (Fin 4) ℝ)
    (viewport : Fin 4 → ℝ) : Fin 4 → ℝ :=
  let org_win := project ![0, 0, 0, 1] MVP viewport
  unproject
    ![org_win 0 + vec_win 0, org_win 1 + vec_win 1, org_win 2 + vec_win 2, 1]
    MVP viewport

/-! ### Helper lemmas for the mapper -/

/-- Undoing the viewport mapping after `project` recovers the
normalized-device coordinates, provided the viewport has nonzero width and
height and the transformed `w` is nonzero. -/
lemma winToNdc_project (p : Fin 4 → ℝ) (MVP : Matrix (Fin 4) (Fin 4) ℝ)
    (vp : Fin 4 → ℝ) (h2 : vp 2 ≠ 0) (h3 : vp 3 ≠ 0)
    (hw : MVP.mulVec p 3 ≠ 0) :
    winToNdc (project p MVP vp) vp = fun i => MVP.mulVec p i / MVP.mulVec p 3 := by
  funext i
  fin_cases i
  · show 2.0 * ((0.5 * (MVP.mulVec p 0 / MVP.mulVec p 3) + 0.5) * vp 2 + vp 0 - vp 0)
        / vp 2 - 1.0 = MVP.mulVec p 0 / MVP.mulVec p 3
    field_simp
    ring
  · show 2.0 * ((0.5 * (MVP.mulVec p 1 / MVP.mulVec p 3) + 0.5) * vp 3 + vp 1 - vp 1)
        / vp 3 - 1.0 = MVP.mulVec p 1 / MVP.mulVec p 3
    field_simp
    ring
  · rfl
  · rfl

/-- The round trip `unproject ∘ project` is the identity on points with
`w = 1`, for an invertible transform, a viewport with nonzero width and
height, and a nonzero transformed `w`. -/
lemma unproject_project (p : Fin 4 → ℝ) (MVP : Matrix (Fin 4) (Fin 4) ℝ)
    (vp : Fin 4 → ℝ) (hdet : IsUnit MVP.det) (h2 : vp 2 ≠ 0) (h3 : vp 3 ≠ 0)
    (hw : MVP.mulVec p 3 ≠ 0) (hp : p 3 = 1) :
    unproject (project p MVP vp) MVP vp = p := by
  have hndc : winToNdc (project p MVP vp) vp = (MVP.mulVec p 3)⁻¹ • MVP.mulVec p := by
    rw [winToNdc_project p MVP vp h2 h3 hw]
    funext i
    simp [div_eq_inv_mul]
  have hinv : MVP⁻¹.mulVec (MVP.mulVec p) = p := by
    rw [Matrix.mulVec_mulVec, Matrix.nonsing_inv_mul MVP hdet, Matrix.one_mulVec]
  show (fun i => MVP⁻¹.mulVec (winToNdc (project p MVP vp) vp) i
      / MVP⁻¹.mulVec (winToNdc (project p MVP vp) vp) 3) = p
  rw [hndc, Matrix.mulVec_smul, hinv]
  funext i
  have hinvw : (MVP.mulVec p 3)⁻¹ ≠ 0 := inv_ne_zero hw
  simp only [Pi.smul_apply, smul_eq_mul, hp, mul_one]
  rw [mul_div_assoc]
  field_simp

/-- The `w` component produced by `project` equals `1` whenever the
transformed `w` is nonzero (the homogeneous divide normalizes it). -/
lemma project_apply_three (p : Fin 4 → ℝ) (MVP : Matrix (Fin 4) (Fin 4) ℝ)
    (vp : Fin 4 → ℝ) (hw : MVP.mulVec p 3 ≠ 0) : project p MVP vp 3 = 1 := by
  show MVP.mulVec p 3 / MVP.mulVec p 3 = 1
  exact div_self hw

/-- Adding a 3D screen delta (with `0` in the `w` slot) to the projected
origin yields exactly the 4-vector that `unproject_vector` builds. -/
lemma proj_origin_add (d : Fin 3 → ℝ) (MVP : Matrix (Fin 4) (Fin 4) ℝ)
    (vp : Fin 4 → ℝ) (hw : MVP.mulVec ![0, 0, 0, 1] 3 ≠ 0) :
    project ![0, 0, 0, 1] MVP vp + ![d 0, d 1, d 2, 0]
      = ![project ![0, 0, 0, 1] MVP vp 0 + d 0,
          project ![0, 0, 0, 1] MVP vp 1 + d 1,
          project ![0, 0, 0, 1] MVP vp 2 + d 2, 1] := by
  have h3 := project_apply_three ![0, 0, 0, 1] MVP vp hw
  funext i
  fin_cases i <;>
    simp [Pi.add_apply, h3, Matrix.cons_val_zero, Matrix.cons_val_one,
      Matrix.cons_val_two, Matrix.cons_val_three, Matrix.vecHead, Matrix.vecTail]

/-- `unproject_vector` is `unproject` of the projected origin plus the delta. -/
lemma unproject_vector_eq (d : Fin 3 → ℝ) (MVP : Matrix (Fin 4) (Fin 4) ℝ)
    (vp : Fin 4 → ℝ) (hw : MVP.mulVec ![0, 0, 0, 1] 3 ≠ 0) :
    unproject_vector d MVP vp
      = unproject (project ![0, 0, 0, 1] MVP vp + ![d 0, d 1, d 2, 0]) MVP vp := by
  rw [proj_origin_add d MVP vp hw]
  rfl

/-- `unproject_vector` of the zero delta recovers the object-space origin. -/
lemma unproject_vector_zero (MVP : Matrix (Fin 4) (Fin 4) ℝ) (vp : Fin 4 → ℝ)
    (hdet : IsUnit MVP.det) (h2 : vp 2 ≠ 0) (h3 : vp 3 ≠ 0)
    (hw : MVP.mulVec ![0, 0, 0, 1] 3 ≠ 0) :
    unproject_vector ![0, 0, 0] MVP vp = ![0, 0, 0, 1] := by
  rw [unproject_vector_eq ![0, 0, 0] MVP vp hw]
  have hz : project ![0, 0, 0, 1] MVP vp
      + ![(![0, 0, 0] : Fin 3 → ℝ) 0, (![0, 0, 0] : Fin 3 → ℝ) 1,
          (![0, 0, 0] : Fin 3 → ℝ) 2, 0]
      = project ![0, 0, 0, 1] MVP vp := by
    funext i
    fin_cases i <;>
      simp [Pi.add_apply, Matrix.cons_val_zero, Matrix.cons_val_one,
        Matrix.cons_val_two, Matrix.cons_val_three, Matrix.vecHead, Matrix.vecTail]
  rw [hz]
  exact unproject_project ![0, 0, 0, 1] MVP vp hdet h2 h3 hw rfl

/-! ### Claim theorems for the mapper -/

/-- C6 (counterexample): the round-trip law fails as stated for a
homogeneous input whose `w` component is not `1`: with the identity
transform and viewport `(0,0,1,1)`, the point `(0,0,0,2)` round-trips to
`(0,0,0,1) ≠ (0,0,0,2)` — `unproject` re-divides by `w`, so `project ∘
unproject` is the identity only up to projective scale. -/
theorem unproject_project_roundtrip_cex :
    unproject (project ![0, 0, 0, 2] (1 : Matrix (Fin 4) (Fin 4) ℝ) ![0, 0, 1, 1])
        1 ![0, 0, 1, 1] ≠ ![0, 0, 0, 2] := by
  intro h
  have e3 : ∀ q : Fin 4 → ℝ,
      unproject q (1 : Matrix (Fin 4) (Fin 4) ℝ) ![0, 0, 1, 1] 3 = q 3 / q 3 := by
    intro q
    show ((1 : Matrix (Fin 4) (Fin 4) ℝ)⁻¹.mulVec (winToNdc q ![0, 0, 1, 1])) 3
        / ((1 : Matrix (Fin 4) (Fin 4) ℝ)⁻¹.mulVec (winToNdc q ![0, 0, 1, 1])) 3
        = q 3 / q 3
    rw [inv_one, Matrix.one_mulVec]
    rfl
  have e4 : project ![0, 0, 0, 2] (1 : Matrix (Fin 4) (Fin 4) ℝ) ![0, 0, 1, 1] 3
      = 1 := by
    apply project_apply_three
    rw [Matrix.one_mulVec]
    norm_num [Matrix.cons_val_three, Matrix.vecHead, Matrix.vecTail]
  have h4 := congrFun h 3
  rw [e3, e4] at h4
  norm_num [Matrix.cons_val_three, Matrix.vecHead, Matrix.vecTail] at h4

/-- C6 (amended): for every transform `MVP` with invertible determinant,
every viewport with nonzero width and height, and every homogeneous point
with `w = 1` whose transformed `w` is nonzero,
`unproject (project p MVP vp) MVP vp = p` exactly. -/
theorem unproject_project_roundtrip (p : Fin 4 → ℝ)
    (MVP : Matrix (Fin 4) (Fin 4) ℝ) (vp : Fin 4 → ℝ)
    (hdet : IsUnit MVP.det) (h2 : vp 2 ≠ 0) (h3 : vp 3 ≠ 0)
    (hw : MVP.mulVec p 3 ≠ 0) (hp : p 3 = 1) :
    unproject (project p MVP vp) MVP vp = p :=
  unproject_project p MVP vp hdet h2 h3 hw hp

/-- Witness for the amended round-trip law at the identity transform,
viewport `(0,0,1,1)` and point `(0,0,0,1)`. -/
theorem unproject_project_roundtrip_witness :
    IsUnit (1 : Matrix (Fin 4) (Fin 4) ℝ).det
    ∧ (![0, 0, 1, 1] : Fin 4 → ℝ) 2 ≠ 0
    ∧ (![0, 0, 1, 1] : Fin 4 → ℝ) 3 ≠ 0
    ∧ (1 : Matrix (Fin 4) (Fin 4) ℝ).mulVec ![0, 0, 0, 1] 3 ≠ 0
    ∧ (![0, 0, 0, 1] : Fin 4 → ℝ) 3 = 1
    ∧ unproject (project ![0, 0, 0, 1] (1 : Matrix (Fin 4) (Fin 4) ℝ) ![0, 0, 1, 1])
        1 ![0, 0, 1, 1] = ![0, 0, 0, 1] := by
  have hdet : IsUnit (1 : Matrix (Fin 4) (Fin 4) ℝ).det := by simp
  have h2 : (![0, 0, 1, 1] : Fin 4 → ℝ) 2 ≠ 0 := by
    norm_num [Matrix.cons_val_two, Matrix.vecHead, Matrix.vecTail]
  have h3 : (![0, 0, 1, 1] : Fin 4 → ℝ) 3 ≠ 0 := by
    norm_num [Matrix.cons_val_three, Matrix.vecHead, Matrix.vecTail]
  have hw : (1 : Matrix (Fin 4) (Fin 4) ℝ).mulVec ![0, 0, 0, 1] 3 ≠ 0 := by
    rw [Matrix.one_mulVec]
    norm_num [Matrix.cons_val_three, Matrix.vecHead, Matrix.vecTail]
  exact ⟨hdet, h2, h3, hw, rfl,
    unproject_project_roundtrip ![0, 0, 0, 1] 1 ![0, 0, 1, 1] hdet h2 h3 hw rfl⟩

/-- C7: `unproject_vector` agrees, on each of the three spatial components,
with the difference `unproject (project origin + delta) - unproject (project
origin)` (the subtracted term being the object-space origin), and applied to
the zero delta it returns a vector of zero 3D magnitude. -/
theorem unproject_vector_difference (d : Fin 3 → ℝ)
    (MVP : Matrix (Fin 4) (Fin 4) ℝ) (vp : Fin 4 → ℝ)
    (hdet : IsUnit MVP.det) (h2 : vp 2 ≠ 0) (h3 : vp 3 ≠ 0)
    (hw : MVP.mulVec ![0, 0, 0, 1] 3 ≠ 0) :
    (∀ i : Fin 4, (i : ℕ) < 3 →
      unproject_vector d MVP vp i
        = unproject (project ![0, 0, 0, 1] MVP vp + ![d 0, d 1, d 2, 0]) MVP vp i
          - unproject (project ![0, 0, 0, 1] MVP vp) MVP vp i)
    ∧ Real.sqrt (unproject_vector ![0, 0, 0] MVP vp 0 ^ 2
        + unproject_vector ![0, 0, 0] MVP vp 1 ^ 2
        + unproject_vector ![0, 0, 0] MVP vp 2 ^ 2) = 0 := by
  have hrt : unproject (project ![0, 0, 0, 1] MVP vp) MVP vp = ![0, 0, 0, 1] :=
    unproject_project ![0, 0, 0, 1] MVP vp hdet h2 h3 hw rfl
  have hz := unproject_vector_zero MVP vp hdet h2 h3 hw
  constructor
  · intro i hi
    rw [unproject_vector_eq d MVP vp hw, hrt]
    fin_cases i
    · simp [Matrix.cons_val_zero]
    · simp [Matrix.cons_val_one, Matrix.vecHead]
    · simp [Matrix.cons_val_two, Matrix.vecHead, Matrix.vecTail]
    · norm_num at hi
  · rw [hz]
    norm_num [Matrix.cons_val_zero, Matrix.cons_val_one, Matrix.cons_val_two,
      Matrix.vecHead, Matrix.vecTail, Real.sqrt_zero]

/-- Witness for C7 at the identity transform, viewport `(0,0,1,1)` and
delta `(1,2,3)`. -/
theorem unproject_vector_difference_witness :
    IsUnit (1 : Matrix (Fin 4) (Fin 4) ℝ).det
    ∧ (![0, 0, 1, 1] : Fin 4 → ℝ) 2 ≠ 0
    ∧ (![0, 0, 1, 1] : Fin 4 → ℝ) 3 ≠ 0
    ∧ (1 : Matrix (Fin 4) (Fin 4) ℝ).mulVec ![0, 0, 0, 1] 3 ≠ 0
    ∧ ((∀ i : Fin 4, (i : ℕ) < 3 →
        unproject_vector ![1, 2, 3] (1 : Matrix (Fin 4) (Fin 4) ℝ) ![0, 0, 1, 1] i
          = unproject (project ![0, 0, 0, 1] (1 : Matrix (Fin 4) (Fin 4) ℝ) ![0, 0, 1, 1]
                + ![(![1, 2, 3] : Fin 3 → ℝ) 0, (![1, 2, 3] : Fin 3 → ℝ) 1,
                    (![1, 2, 3] : Fin 3 → ℝ) 2, 0]) 1 ![0, 0, 1, 1] i
            - unproject (project ![0, 0, 0, 1] (1 : Matrix (Fin 4) (Fin 4) ℝ)
                ![0, 0, 1, 1]) 1 ![0, 0, 1, 1] i)
      ∧ Real.sqrt (unproject_vector ![0, 0, 0] (1 : Matrix (Fin 4) (Fin 4) ℝ)
            ![0, 0, 1, 1] 0 ^ 2
          + unproject_vector ![0, 0, 0] (1 : Matrix (Fin 4) (Fin 4) ℝ)
            ![0, 0, 1, 1] 1 ^ 2
          + unproject_vector ![0, 0, 0] (1 : Matrix (Fin 4) (Fin 4) ℝ)
            ![0, 0, 1, 1] 2 ^ 2) = 0) := by
  have hdet : IsUnit (1 : Matrix (Fin 4) (Fin 4) ℝ).det := by simp
  have h2 : (![0, 0, 1, 1] : Fin 4 → ℝ) 2 ≠ 0 := by
    norm_num [Matrix.cons_val_two, Matrix.vecHead, Matrix.vecTail]
  have h3 : (![0, 0, 1, 1] : Fin 4 → ℝ) 3 ≠ 0 := by
    norm_num [Matrix.cons_val_three, Matrix.vecHead, Matrix.vecTail]
  have hw : (1 : Matrix (Fin 4) (Fin 4) ℝ).mulVec ![0, 0, 0, 1] 3 ≠ 0 := by
    rw [Matrix.one_mulVec]
    norm_num [Matrix.cons_val_three, Matrix.vecHead, Matrix.vecTail]
  exact ⟨hdet, h2, h3, hw,
    unproject_vector_difference ![1, 2, 3] 1 ![0, 0, 1, 1] hdet h2 h3 hw⟩

/-- C10: the viewport scale/offset touches only the first two components in
both directions: `project` returns the normalized-device `z` (and `w`)
untouched by the viewport, the viewport-undo step of `unproject` passes the
`z` and `w` components through unchanged, and `unproject` is exactly the
inverse transform of the viewport-undone vector followed by the homogeneous
divide. -/
theorem mapper_viewport_touches_only_xy (p : Fin 4 → ℝ)
    (MVP : Matrix (Fin 4) (Fin 4) ℝ) (vp : Fin 4 → ℝ) :
    project p MVP vp 2 = MVP.mulVec p 2 / MVP.mulVec p 3
    ∧ project p MVP vp 3 = MVP.mulVec p 3 / MVP.mulVec p 3
    ∧ winToNdc p vp 2 = p 2
    ∧ winToNdc p vp 3 = p 3
    ∧ unproject p MVP vp
        = fun i => MVP⁻¹.mulVec (winToNdc p vp) i / MVP⁻¹.mulVec (winToNdc p vp) 3 :=
  ⟨rfl, rfl, rfl, rfl, rfl⟩

/-! ## Tangent-Space Generator (utils.js: computeTangents)

The JavaScript function reads flat `Float32Array`s; we model the flat buffers
as functions `ℕ → ℝ` and the index buffer as a `List ℕ` consumed three at a
time, exactly as the `for (let i = 0; i < indices.length; i += 3)` loop does.
The accumulator arrays start at zero and are updated by point-wise addition
at the written slots. -/

/-- Add `v` into slot `k` of a flat buffer (`buf[k] += v`). -/
def addAt (f : ℕ → ℝ) (k : ℕ) (v : ℝ) : ℕ → ℝ :=
  fun j => if j = k then f j + v else f j

/-- Add the 3-vector `(vx, vy, vz)` into the three slots of vertex `k`
(`buf[k*3] += vx; buf[k*3+1] += vy; buf[k*3+2] += vz`). -/
def addVec3 (f : ℕ → ℝ) (k : ℕ) (v : ℝ × ℝ × ℝ) : ℕ → ℝ :=
  addAt (addAt (addAt f (k * 3) v.1) (k * 3 + 1) v.2.1) (k * 3 + 2) v.2.2

/-- The per-triangle tangent and bitangent of the triangle `(i0, i1, i2)`,
exactly as computed inside the loop of `computeTangents`:
`T = (E1*dV2 - E2*dV1) * r`, `B = (E2*dU1 - E1*dU2) * r` with `r = 1/denom`. -/
def triTB (positions uvs : ℕ → ℝ) (i0 i1 i2 : ℕ) : (ℝ × ℝ × ℝ) × (ℝ × ℝ × ℝ) :=
  let x0 := positions (i0 * 3); let y0 := positions (i0 * 3 + 1)
  let z0 := positions (i0 * 3 + 2)
  let x1 := positions (i1 * 3); let y1 := positions (i1 * 3 + 1)
  let z1 := positions (i1 * 3 + 2)
  let x2 := positions (i2 * 3); let y2 := positions (i2 * 3 + 1)
  let z2 := positions (i2 * 3 + 2)
  let u0 := uvs (i0 * 2); let v0 := uvs (i0 * 2 + 1)
  let u1 := uvs (i1 * 2); let v1 := uvs (i1 * 2 + 1)
  let u2 := uvs (i2 * 2); let v2 := uvs (i2 * 2 + 1)
  let E1x := x1 - x0; let E1y := y1 - y0; let E1z := z1 - z0
  let E2x := x2 - x0; let E2y := y2 - y0; let E2z := z2 - z0
  let dU1 := u1 - u0; let dV1 := v1 - v0
  let dU2 := u2 - u0; let dV2 := v2 - v0
  let denom := dU1 * dV2 - dU2 * dV1
  let r := 1 / denom
  (((E1x * dV2 - E2x * dV1) * r, (E1y * dV2 - E2y * dV1) * r,
    (E1z * dV2 - E2z * dV1) * r),
   ((E2x * dU1 - E1x * dU2) * r, (E2y * dU1 - E1y * dU2) * r,
    (E2z * dU1 - E1z * dU2) * r))

/-- One iteration of the triangle loop of `computeTangents`: if the UV
determinant `denom` is zero the triangle is skipped (`continue`), otherwise
the per-triangle tangent is added to the three vertices' tangent accumulators
and likewise the bitangent. -/
def accumulateTri (positions uvs : ℕ → ℝ) (acc : (ℕ → ℝ) × (ℕ → ℝ))
    (i0 i1 i2 : ℕ) : (ℕ → ℝ) × (ℕ → ℝ) :=
  let dU1 := uvs (i1 * 2) - uvs (i0 * 2)
  let dV1 := uvs (i1 * 2 + 1) - uvs (i0 * 2 + 1)
  let dU2 := uvs (i2 * 2) - uvs (i0 * 2)
  let dV2 := uvs (i2 * 2 + 1) - uvs (i0 * 2 + 1)
  let denom := dU1 * dV2 - dU2 * dV1
  if denom = 0 then acc
  else
    let T := (triTB positions uvs i0 i1 i2).1
    let B := (triTB positions uvs i0 i1 i2).2
    (addVec3 (addVec3 (addVec3 acc.1 i0 T) i1 T) i2 T,
     addVec3 (addVec3 (addVec3 acc.2 i0 B) i1 B) i2 B)

/-- The triangle loop: consume the flat index list three entries at a time. -/
def accumLoop (positions uvs : ℕ → ℝ) (acc : (ℕ → ℝ) × (ℕ → ℝ)) :
    List ℕ → (ℕ → ℝ) × (ℕ → ℝ)
  | i0 :: i1 :: i2 :: rest =>
      accumLoop positions uvs (accumulateTri positions uvs acc i0 i1 i2) rest
  | _ => acc

/-- The per-vertex pass of `computeTangents` applied to one accumulated
vector `(tx, ty, tz)` and the vertex normal `(nx, ny, nz)`: subtract the
projection onto the normal, then normalize if the length is positive,
otherwise keep the (zero) vector.  The source applies this identically to
the tangent and to the bitangent. -/
def finalize3 (nx ny nz tx ty tz : ℝ) : ℝ × ℝ × ℝ :=
  let NdotT := nx * tx + ny * ty + nz * tz
  let tx2 := tx - NdotT * nx
  let ty2 := ty - NdotT * ny
  let tz2 := tz - NdotT * nz
  let tlen := Real.sqrt (tx2 * tx2 + ty2 * ty2 + tz2 * tz2)
  if tlen > 0 then (tx2 / tlen, ty2 / tlen, tz2 / tlen) else (tx2, ty2, tz2)

/-- Embedding of `computeTangents(positions, normals, uvs, indices)`:
accumulate per-triangle tangents/bitangents over the index list, then
orthogonalize and normalize per vertex.  The result is given per vertex
index `i` as the 3-vector stored at slots `i*3 .. i*3+2` of the output
arrays (the source writes exactly these slots for each `i < vertexCount`). -/
def computeTangents (positions normals uvs : ℕ → ℝ) (indices : List ℕ) :
    (ℕ → ℝ × ℝ × ℝ) × (ℕ → ℝ × ℝ × ℝ) :=
  let acc := accumLoop positions uvs (fun _ => 0, fun _ => 0) indices
  (fun i => finalize3 (normals (i * 3)) (normals (i * 3 + 1)) (normals (i * 3 + 2))
      (acc.1 (i * 3)) (acc.1 (i * 3 + 1)) (acc.1 (i * 3 + 2)),
   fun i => finalize3 (normals (i * 3)) (normals (i * 3 + 1)) (normals (i * 3 + 2))
      (acc.2 (i * 3)) (acc.2 (i * 3 + 1)) (acc.2 (i * 3 + 2)))

/-- Dot product of 3-vectors represented as triples. -/
def dot3 (a b : ℝ × ℝ × ℝ) : ℝ := a.1 * b.1 + a.2.1 * b.2.1 + a.2.2 * b.2.2

/-- Euclidean length of a 3-vector represented as a triple. -/
def norm3 (a : ℝ × ℝ × ℝ) : ℝ := Real.sqrt (a.1 ^ 2 + a.2.1 ^ 2 + a.2.2 ^ 2)

/-- The orthogonalized (not yet normalized) vector of the per-vertex pass:
the accumulated vector minus its projection onto the vertex normal
(source lines `tx = tx - NdotT * nx` etc.). -/
def orthoPart (nx ny nz tx ty tz : ℝ) : ℝ × ℝ × ℝ :=
  (tx - (nx * tx + ny * ty + nz * tz) * nx,
   ty - (nx * tx + ny * ty + nz * tz) * ny,
   tz - (nx * tx + ny * ty + nz * tz) * nz)

/-! ### Helper lemmas for the tangent generator -/

/-- A sum of three squares that is nonpositive forces all components to
vanish. -/
lemma sum_sq_zero (a b c : ℝ) (h : a ^ 2 + b ^ 2 + c ^ 2 ≤ 0) :
    a = 0 ∧ b = 0 ∧ c = 0 := by
  have ha2 : a ^ 2 ≤ 0 := by linarith [sq_nonneg b, sq_nonneg c]
  have hb2 : b ^ 2 ≤ 0 := by linarith [sq_nonneg a, sq_nonneg c]
  have hc2 : c ^ 2 ≤ 0 := by linarith [sq_nonneg a, sq_nonneg b]
  exact ⟨sq_eq_zero_iff.mp (le_antisymm ha2 (sq_nonneg a)),
    sq_eq_zero_iff.mp (le_antisymm hb2 (sq_nonneg b)),
    sq_eq_zero_iff.mp (le_antisymm hc2 (sq_nonneg c))⟩

/-- If the orthogonalized vector has zero length, the per-vertex pass keeps
the exact zero vector (no normalization is attempted). -/
lemma finalize3_of_len_zero (nx ny nz tx ty tz : ℝ)
    (h : norm3 (orthoPart nx ny nz tx ty tz) = 0) :
    finalize3 nx ny nz tx ty tz = (0, 0, 0) := by
  simp only [norm3, orthoPart] at h
  have hsum := Real.sqrt_eq_zero'.mp h
  obtain ⟨ha, hb, hc⟩ := sum_sq_zero _ _ _ hsum
  simp only [finalize3]
  rw [ha, hb, hc]
  norm_num [Real.sqrt_zero]

/-- Normalizing a nonzero vector orthogonal to the normal yields a unit
vector still orthogonal to the normal. -/
lemma normalize_props (a b c nx ny nz : ℝ) (hdot : a * nx + b * ny + c * nz = 0)
    (hpos : Real.sqrt (a * a + b * b + c * c) > 0) :
    (a / Real.sqrt (a * a + b * b + c * c)) * nx
      + (b / Real.sqrt (a * a + b * b + c * c)) * ny
      + (c / Real.sqrt (a * a + b * b + c * c)) * nz = 0
    ∧ Real.sqrt ((a / Real.sqrt (a * a + b * b + c * c)) ^ 2
        + (b / Real.sqrt (a * a + b * b + c * c)) ^ 2
        + (c / Real.sqrt (a * a + b * b + c * c)) ^ 2) = 1 := by
  have hS : (0 : ℝ) < a * a + b * b + c * c := Real.sqrt_pos.mp hpos
  constructor
  · have he : (a / Real.sqrt (a * a + b * b + c * c)) * nx
        + (b / Real.sqrt (a * a + b * b + c * c)) * ny
        + (c / Real.sqrt (a * a + b * b + c * c)) * nz
        = (a * nx + b * ny + c * nz) / Real.sqrt (a * a + b * b + c * c) := by
      ring
    rw [he, hdot, zero_div]
  · have he : (a / Real.sqrt (a * a + b * b + c * c)) ^ 2
        + (b / Real.sqrt (a * a + b * b + c * c)) ^ 2
        + (c / Real.sqrt (a * a + b * b + c * c)) ^ 2
        = (a * a + b * b + c * c) / Real.sqrt (a * a + b * b + c * c) ^ 2 := by
      ring
    rw [he, Real.sq_sqrt (le_of_lt hS), div_self (ne_of_gt hS), Real.sqrt_one]

/-- The per-vertex pass on a unit normal produces either the zero vector or
a unit vector orthogonal to the normal. -/
lemma finalize3_unit (nx ny nz tx ty tz : ℝ)
    (hn : nx ^ 2 + ny ^ 2 + nz ^ 2 = 1)
    (hne : finalize3 nx ny nz tx ty tz ≠ (0, 0, 0)) :
    dot3 (finalize3 nx ny nz tx ty tz) (nx, ny, nz) = 0
    ∧ norm3 (finalize3 nx ny nz tx ty tz) = 1 := by
  have hdot : (tx - (nx * tx + ny * ty + nz * tz) * nx) * nx
      + (ty - (nx * tx + ny * ty + nz * tz) * ny) * ny
      + (tz - (nx * tx + ny * ty + nz * tz) * nz) * nz = 0 := by
    linear_combination (-(nx * tx + ny * ty + nz * tz)) * hn
  by_cases hc : Real.sqrt
      ((tx - (nx * tx + ny * ty + nz * tz) * nx) * (tx - (nx * tx + ny * ty + nz * tz) * nx)
        + (ty - (nx * tx + ny * ty + nz * tz) * ny) * (ty - (nx * tx + ny * ty + nz * tz) * ny)
        + (tz - (nx * tx + ny * ty + nz * tz) * nz) * (tz - (nx * tx + ny * ty + nz * tz) * nz))
      > 0
  · have hout : finalize3 nx ny nz tx ty tz
        = ((tx - (nx * tx + ny * ty + nz * tz) * nx) / Real.sqrt
            ((tx - (nx * tx + ny * ty + nz * tz) * nx) * (tx - (nx * tx + ny * ty + nz * tz) * nx)
              + (ty - (nx * tx + ny * ty + nz * tz) * ny) * (ty - (nx * tx + ny * ty + nz * tz) * ny)
              + (tz - (nx * tx + ny * ty + nz * tz) * nz) * (tz - (nx * tx + ny * ty + nz * tz) * nz)),
           (ty - (nx * tx + ny * ty + nz * tz) * ny) / Real.sqrt
            ((tx - (nx * tx + ny * ty + nz * tz) * nx) * (tx - (nx * tx + ny * ty + nz * tz) * nx)
              + (ty - (nx * tx + ny * ty + nz * tz) * ny) * (ty - (nx * tx + ny * ty + nz * tz) * ny)
              + (tz - (nx * tx + ny * ty + nz * tz) * nz) * (tz - (nx * tx + ny * ty + nz * tz) * nz)),
           (tz - (nx * tx + ny * ty + nz * tz) * nz) / Real.sqrt
            ((tx - (nx * tx + ny * ty + nz * tz) * nx) * (tx - (nx * tx + ny * ty + nz * tz) * nx)
              + (ty - (nx * tx + ny * ty + nz * tz) * ny) * (ty - (nx * tx + ny * ty + nz * tz) * ny)
              + (tz - (nx * tx + ny * ty + nz * tz) * nz) * (tz - (nx * tx + ny * ty + nz * tz) * nz))) := by
      simp only [finalize3]
      rw [if_pos hc]
    have hp := normalize_props (tx - (nx * tx + ny * ty + nz * tz) * nx)
      (ty - (nx * tx + ny * ty + nz * tz) * ny)
      (tz - (nx * tx + ny * ty + nz * tz) * nz) nx ny nz hdot hc
    rw [hout]
    exact ⟨by simpa [dot3] using hp.1, by simpa [norm3] using hp.2⟩
  · exfalso
    apply hne
    apply finalize3_of_len_zero
    have hnonneg := Real.sqrt_nonneg
      ((tx - (nx * tx + ny * ty + nz * tz) * nx) * (tx - (nx * tx + ny * ty + nz * tz) * nx)
        + (ty - (nx * tx + ny * ty + nz * tz) * ny) * (ty - (nx * tx + ny * ty + nz * tz) * ny)
        + (tz - (nx * tx + ny * ty + nz * tz) * nz) * (tz - (nx * tx + ny * ty + nz * tz) * nz))
    have hz : Real.sqrt
        ((tx - (nx * tx + ny * ty + nz * tz) * nx) * (tx - (nx * tx + ny * ty + nz * tz) * nx)
          + (ty - (nx * tx + ny * ty + nz * tz) * ny) * (ty - (nx * tx + ny * ty + nz * tz) * ny)
          + (tz - (nx * tx + ny * ty + nz * tz) * nz) * (tz - (nx * tx + ny * ty + nz * tz) * nz))
        = 0 := le_antisymm (not_lt.mp hc) hnonneg
    simp only [norm3, orthoPart]
    calc Real.sqrt ((tx - (nx * tx + ny * ty + nz * tz) * nx) ^ 2
          + (ty - (nx * tx + ny * ty + nz * tz) * ny) ^ 2
          + (tz - (nx * tx + ny * ty + nz * tz) * nz) ^ 2)
        = Real.sqrt
          ((tx - (nx * tx + ny * ty + nz * tz) * nx) * (tx - (nx * tx + ny * ty + nz * tz) * nx)
            + (ty - (nx * tx + ny * ty + nz * tz) * ny) * (ty - (nx * tx + ny * ty + nz * tz) * ny)
            + (tz - (nx * tx + ny * ty + nz * tz) * nz) * (tz - (nx * tx + ny * ty + nz * tz) * nz)) := by
          congr 1
          ring
      _ = 0 := hz

/-! ### Claim theorems for the tangent generator -/

/-- C1: for every triangle whose UV determinant is nonzero, the per-triangle
tangent `T` and bitangent `B` computed before accumulation satisfy the
UV-gradient linear system exactly: `dU1*T + dV1*B = E1` and
`dU2*T + dV2*B = E2` componentwise. -/
theorem computeTangents_uv_system (positions uvs : ℕ → ℝ) (i0 i1 i2 : ℕ)
    (h : (uvs (i1 * 2) - uvs (i0 * 2)) * (uvs (i2 * 2 + 1) - uvs (i0 * 2 + 1))
        - (uvs (i2 * 2) - uvs (i0 * 2)) * (uvs (i1 * 2 + 1) - uvs (i0 * 2 + 1)) ≠ 0) :
    (uvs (i1 * 2) - uvs (i0 * 2)) * (triTB positions uvs i0 i1 i2).1.1
        + (uvs (i1 * 2 + 1) - uvs (i0 * 2 + 1)) * (triTB positions uvs i0 i1 i2).2.1
      = positions (i1 * 3) - positions (i0 * 3)
    ∧ (uvs (i1 * 2) - uvs (i0 * 2)) * (triTB positions uvs i0 i1 i2).1.2.1
        + (uvs (i1 * 2 + 1) - uvs (i0 * 2 + 1)) * (triTB positions uvs i0 i1 i2).2.2.1
      = positions (i1 * 3 + 1) - positions (i0 * 3 + 1)
    ∧ (uvs (i1 * 2) - uvs (i0 * 2)) * (triTB positions uvs i0 i1 i2).1.2.2
        + (uvs (i1 * 2 + 1) - uvs (i0 * 2 + 1)) * (triTB positions uvs i0 i1 i2).2.2.2
      = positions (i1 * 3 + 2) - positions (i0 * 3 + 2)
    ∧ (uvs (i2 * 2) - uvs (i0 * 2)) * (triTB positions uvs i0 i1 i2).1.1
        + (uvs (i2 * 2 + 1) - uvs (i0 * 2 + 1)) * (triTB positions uvs i0 i1 i2).2.1
      = positions (i2 * 3) - positions (i0 * 3)
    ∧ (uvs (i2 * 2) - uvs (i0 * 2)) * (triTB positions uvs i0 i1 i2).1.2.1
        + (uvs (i2 * 2 + 1) - uvs (i0 * 2 + 1)) * (triTB positions uvs i0 i1 i2).2.2.1
      = positions (i2 * 3 + 1) - positions (i0 * 3 + 1)
    ∧ (uvs (i2 * 2) - uvs (i0 * 2)) * (triTB positions uvs i0 i1 i2).1.2.2
        + (uvs (i2 * 2 + 1) - uvs (i0 * 2 + 1)) * (triTB positions uvs i0 i1 i2).2.2.2
      = positions (i2 * 3 + 2) - positions (i0 * 3 + 2) := by
  simp only [triTB]
  refine ⟨?_, ?_, ?_, ?_, ?_, ?_⟩ <;> field_simp <;> ring

/-- C3: a triangle with zero UV determinant contributes nothing: the loop
body returns the accumulators unchanged (the `continue` branch). -/
theorem computeTangents_degenerate_skipped (positions uvs : ℕ → ℝ)
    (acc : (ℕ → ℝ) × (ℕ → ℝ)) (i0 i1 i2 : ℕ)
    (h : (uvs (i1 * 2) - uvs (i0 * 2)) * (uvs (i2 * 2 + 1) - uvs (i0 * 2 + 1))
        - (uvs (i2 * 2) - uvs (i0 * 2)) * (uvs (i1 * 2 + 1) - uvs (i0 * 2 + 1)) = 0) :
    accumulateTri positions uvs acc i0 i1 i2 = acc := by
  simp only [accumulateTri]
  rw [if_pos h]

/-- C2: after the per-vertex pass, if the vertex normal is unit-length then,
independently for each of the two outputs: whenever the resulting tangent is
nonzero it is orthogonal to the normal and unit-length, and whenever the
resulting bitangent is nonzero it is orthogonal to the normal and
unit-length. -/
theorem computeTangents_orthonormal (positions normals uvs : ℕ → ℝ)
    (indices : List ℕ) (i : ℕ)
    (hn : normals (i * 3) ^ 2 + normals (i * 3 + 1) ^ 2 + normals (i * 3 + 2) ^ 2 = 1) :
    ((computeTangents positions normals uvs indices).1 i ≠ (0, 0, 0) →
      dot3 ((computeTangents positions normals uvs indices).1 i)
          (normals (i * 3), normals (i * 3 + 1), normals (i * 3 + 2)) = 0
      ∧ norm3 ((computeTangents positions normals uvs indices).1 i) = 1)
    ∧ ((computeTangents positions normals uvs indices).2 i ≠ (0, 0, 0) →
      dot3 ((computeTangents positions normals uvs indices).2 i)
          (normals (i * 3), normals (i * 3 + 1), normals (i * 3 + 2)) = 0
      ∧ norm3 ((computeTangents positions normals uvs indices).2 i) = 1) := by
  constructor
  · intro ht
    exact finalize3_unit (normals (i * 3)) (normals (i * 3 + 1)) (normals (i * 3 + 2))
      ((accumLoop positions uvs (fun _ => 0, fun _ => 0) indices).1 (i * 3))
      ((accumLoop positions uvs (fun _ => 0, fun _ => 0) indices).1 (i * 3 + 1))
      ((accumLoop positions uvs (fun _ => 0, fun _ => 0) indices).1 (i * 3 + 2)) hn ht
  · intro hb
    exact finalize3_unit (normals (i * 3)) (normals (i * 3 + 1)) (normals (i * 3 + 2))
      ((accumLoop positions uvs (fun _ => 0, fun _ => 0) indices).2 (i * 3))
      ((accumLoop positions uvs (fun _ => 0, fun _ => 0) indices).2 (i * 3 + 1))
      ((accumLoop positions uvs (fun _ => 0, fun _ => 0) indices).2 (i * 3 + 2)) hn hb

/-- C4: a vertex whose orthogonalized accumulated tangent (resp. bitangent)
has zero length is output as the exact zero vector — no normalization, no
undefined value. -/
theorem computeTangents_zero_stays_zero (positions normals uvs : ℕ → ℝ)
    (indices : List ℕ) (i : ℕ) :
    (norm3 (orthoPart (normals (i * 3)) (normals (i * 3 + 1)) (normals (i * 3 + 2))
        ((accumLoop positions uvs (fun _ => 0, fun _ => 0) indices).1 (i * 3))
        ((accumLoop positions uvs (fun _ => 0, fun _ => 0) indices).1 (i * 3 + 1))
        ((accumLoop positions uvs (fun _ => 0, fun _ => 0) indices).1 (i * 3 + 2))) = 0
      → (computeTangents positions normals uvs indices).1 i = (0, 0, 0))
    ∧ (norm3 (orthoPart (normals (i * 3)) (normals (i * 3 + 1)) (normals (i * 3 + 2))
        ((accumLoop positions uvs (fun _ => 0, fun _ => 0) indices).2 (i * 3))
        ((accumLoop positions uvs (fun _ => 0, fun _ => 0) indices).2 (i * 3 + 1))
        ((accumLoop positions uvs (fun _ => 0, fun _ => 0) indices).2 (i * 3 + 2))) = 0
      → (computeTangents positions normals uvs indices).2 i = (0, 0, 0)) :=
  ⟨fun h => finalize3_of_len_zero _ _ _ _ _ _ h,
   fun h => finalize3_of_len_zero _ _ _ _ _ _ h⟩

/-! ### Concrete meshes for the witnesses

`meshPos`/`meshNrm`/`meshUV` encode the single triangle with vertices
`(0,0,0), (1,0,0), (0,1,0)`, normals all `(0,0,1)` and UVs
`(0,0), (1,0), (0,1)`; `meshUVdeg` gives all three vertices the same UV
`(0,0)` (a degenerate UV triangle). -/

def meshPos : ℕ → ℝ := fun j => if j = 3 then 1 else if j = 7 then 1 else 0

def meshUV : ℕ → ℝ := fun j => if j = 2 then 1 else if j = 5 then 1 else 0

def meshNrm : ℕ → ℝ :=
  fun j => if j = 2 then 1 else if j = 5 then 1 else if j = 8 then 1 else 0

def meshUVdeg : ℕ → ℝ := fun _ => 0

/-- Witness for C1 at the concrete triangle `meshPos`/`meshUV`. -/
theorem computeTangents_uv_system_witness :
    ((meshUV (1 * 2) - meshUV (0 * 2)) * (meshUV (2 * 2 + 1) - meshUV (0 * 2 + 1))
      - (meshUV (2 * 2) - meshUV (0 * 2)) * (meshUV (1 * 2 + 1) - meshUV (0 * 2 + 1)) ≠ 0)
    ∧ ((meshUV (1 * 2) - meshUV (0 * 2)) * (triTB meshPos meshUV 0 1 2).1.1
        + (meshUV (1 * 2 + 1) - meshUV (0 * 2 + 1)) * (triTB meshPos meshUV 0 1 2).2.1
      = meshPos (1 * 3) - meshPos (0 * 3)
    ∧ (meshUV (1 * 2) - meshUV (0 * 2)) * (triTB meshPos meshUV 0 1 2).1.2.1
        + (meshUV (1 * 2 + 1) - meshUV (0 * 2 + 1)) * (triTB meshPos meshUV 0 1 2).2.2.1
      = meshPos (1 * 3 + 1) - meshPos (0 * 3 + 1)
    ∧ (meshUV (1 * 2) - meshUV (0 * 2)) * (triTB meshPos meshUV 0 1 2).1.2.2
        + (meshUV (1 * 2 + 1) - meshUV (0 * 2 + 1)) * (triTB meshPos meshUV 0 1 2).2.2.2
      = meshPos (1 * 3 + 2) - meshPos (0 * 3 + 2)
    ∧ (meshUV (2 * 2) - meshUV (0 * 2)) * (triTB meshPos meshUV 0 1 2).1.1
        + (meshUV (2 * 2 + 1) - meshUV (0 * 2 + 1)) * (triTB meshPos meshUV 0 1 2).2.1
      = meshPos (2 * 3) - meshPos (0 * 3)
    ∧ (meshUV (2 * 2) - meshUV (0 * 2)) * (triTB meshPos meshUV 0 1 2).1.2.1
        + (meshUV (2 * 2 + 1) - meshUV (0 * 2 + 1)) * (triTB meshPos meshUV 0 1 2).2.2.1
      = meshPos (2 * 3 + 1) - meshPos (0 * 3 + 1)
    ∧ (meshUV (2 * 2) - meshUV (0 * 2)) * (triTB meshPos meshUV 0 1 2).1.2.2
        + (meshUV (2 * 2 + 1) - meshUV (0 * 2 + 1)) * (triTB meshPos meshUV 0 1 2).2.2.2
      = meshPos (2 * 3 + 2) - meshPos (0 * 3 + 2)) := by
  have h : (meshUV (1 * 2) - meshUV (0 * 2)) * (meshUV (2 * 2 + 1) - meshUV (0 * 2 + 1))
      - (meshUV (2 * 2) - meshUV (0 * 2)) * (meshUV (1 * 2 + 1) - meshUV (0 * 2 + 1)) ≠ 0 := by
    norm_num [meshUV]
  exact ⟨h, computeTangents_uv_system meshPos meshUV 0 1 2 h⟩

/-- Witness for C2 at the concrete triangle: vertex 0 has unit normal and
nonzero outputs, which are orthonormal to the normal. -/
theorem computeTangents_orthonormal_witness :
    (meshNrm (0 * 3) ^ 2 + meshNrm (0 * 3 + 1) ^ 2 + meshNrm (0 * 3 + 2) ^ 2 = 1)
    ∧ ((computeTangents meshPos meshNrm meshUV [0, 1, 2]).1 0 ≠ (0, 0, 0))
    ∧ ((computeTangents meshPos meshNrm meshUV [0, 1, 2]).2 0 ≠ (0, 0, 0))
    ∧ (dot3 ((computeTangents meshPos meshNrm meshUV [0, 1, 2]).1 0)
        (meshNrm (0 * 3), meshNrm (0 * 3 + 1), meshNrm (0 * 3 + 2)) = 0
      ∧ norm3 ((computeTangents meshPos meshNrm meshUV [0, 1, 2]).1 0) = 1
      ∧ dot3 ((computeTangents meshPos meshNrm meshUV [0, 1, 2]).2 0)
        (meshNrm (0 * 3), meshNrm (0 * 3 + 1), meshNrm (0 * 3 + 2)) = 0
      ∧ norm3 ((computeTangents meshPos meshNrm meshUV [0, 1, 2]).2 0) = 1) := by
  have hn : meshNrm (0 * 3) ^ 2 + meshNrm (0 * 3 + 1) ^ 2 + meshNrm (0 * 3 + 2) ^ 2 = 1 := by
    norm_num [meshNrm]
  have htv : (computeTangents meshPos meshNrm meshUV [0, 1, 2]).1 0 = (1, 0, 0) := by
    norm_num [computeTangents, accumLoop, accumulateTri, triTB, addVec3, addAt,
      finalize3, meshPos, meshUV, meshNrm, Real.sqrt_one]
  have hbv : (computeTangents meshPos meshNrm meshUV [0, 1, 2]).2 0 = (0, 1, 0) := by
    norm_num [computeTangents, accumLoop, accumulateTri, triTB, addVec3, addAt,
      finalize3, meshPos, meshUV, meshNrm, Real.sqrt_one]
  have ht : (computeTangents meshPos meshNrm meshUV [0, 1, 2]).1 0 ≠ (0, 0, 0) := by
    rw [htv]
    simp [Prod.ext_iff]
  have hb : (computeTangents meshPos meshNrm meshUV [0, 1, 2]).2 0 ≠ (0, 0, 0) := by
    rw [hbv]
    simp [Prod.ext_iff]
  have hmain := computeTangents_orthonormal meshPos meshNrm meshUV [0, 1, 2] 0 hn
  exact ⟨hn, ht, hb, (hmain.1 ht).1, (hmain.1 ht).2, (hmain.2 hb).1, (hmain.2 hb).2⟩

/-- Witness for C3: the degenerate-UV triangle leaves the zero accumulators
unchanged. -/
theorem computeTangents_degenerate_skipped_witness :
    ((meshUVdeg (1 * 2) - meshUVdeg (0 * 2))
        * (meshUVdeg (2 * 2 + 1) - meshUVdeg (0 * 2 + 1))
      - (meshUVdeg (2 * 2) - meshUVdeg (0 * 2))
        * (meshUVdeg (1 * 2 + 1) - meshUVdeg (0 * 2 + 1)) = 0)
    ∧ accumulateTri meshPos meshUVdeg (fun _ => 0, fun _ => 0) 0 1 2
      = (fun _ => 0, fun _ => 0) := by
  have h : (meshUVdeg (1 * 2) - meshUVdeg (0 * 2))
      * (meshUVdeg (2 * 2 + 1) - meshUVdeg (0 * 2 + 1))
      - (meshUVdeg (2 * 2) - meshUVdeg (0 * 2))
        * (meshUVdeg (1 * 2 + 1) - meshUVdeg (0 * 2 + 1)) = 0 := by
    norm_num [meshUVdeg]
  exact ⟨h, computeTangents_degenerate_skipped meshPos meshUVdeg
    (fun _ => 0, fun _ => 0) 0 1 2 h⟩

/-- Witness for C4: a mesh whose only triangle has identical UVs at all three
vertices accumulates nothing, so vertex 0 is output as the exact zero vector
for both the tangent and the bitangent. -/
theorem computeTangents_zero_stays_zero_witness :
    (norm3 (orthoPart (meshNrm (0 * 3)) (meshNrm (0 * 3 + 1)) (meshNrm (0 * 3 + 2))
        ((accumLoop meshPos meshUVdeg (fun _ => 0, fun _ => 0) [0, 1, 2]).1 (0 * 3))
        ((accumLoop meshPos meshUVdeg (fun _ => 0, fun _ => 0) [0, 1, 2]).1 (0 * 3 + 1))
        ((accumLoop meshPos meshUVdeg (fun _ => 0, fun _ => 0) [0, 1, 2]).1 (0 * 3 + 2))) = 0)
    ∧ (norm3 (orthoPart (meshNrm (0 * 3)) (meshNrm (0 * 3 + 1)) (meshNrm (0 * 3 + 2))
        ((accumLoop meshPos meshUVdeg (fun _ => 0, fun _ => 0) [0, 1, 2]).2 (0 * 3))
        ((accumLoop meshPos meshUVdeg (fun _ => 0, fun _ => 0) [0, 1, 2]).2 (0 * 3 + 1))
        ((accumLoop meshPos meshUVdeg (fun _ => 0, fun _ => 0) [0, 1, 2]).2 (0 * 3 + 2))) = 0)
    ∧ (computeTangents meshPos meshNrm meshUVdeg [0, 1, 2]).1 0 = (0, 0, 0)
    ∧ (computeTangents meshPos meshNrm meshUVdeg [0, 1, 2]).2 0 = (0, 0, 0) := by
  have h1 : norm3 (orthoPart (meshNrm (0 * 3)) (meshNrm (0 * 3 + 1)) (meshNrm (0 * 3 + 2))
      ((accumLoop meshPos meshUVdeg (fun _ => 0, fun _ => 0) [0, 1, 2]).1 (0 * 3))
      ((accumLoop meshPos meshUVdeg (fun _ => 0, fun _ => 0) [0, 1, 2]).1 (0 * 3 + 1))
      ((accumLoop meshPos meshUVdeg (fun _ => 0, fun _ => 0) [0, 1, 2]).1 (0 * 3 + 2))) = 0 := by
    norm_num [norm3, orthoPart, accumLoop, accumulateTri, meshUVdeg, meshNrm,
      Real.sqrt_zero]
  have h2 : norm3 (orthoPart (meshNrm (0 * 3)) (meshNrm (0 * 3 + 1)) (meshNrm (0 * 3 + 2))
      ((accumLoop meshPos meshUVdeg (fun _ => 0, fun _ => 0) [0, 1, 2]).2 (0 * 3))
      ((accumLoop meshPos meshUVdeg (fun _ => 0, fun _ => 0) [0, 1, 2]).2 (0 * 3 + 1))
      ((accumLoop meshPos meshUVdeg (fun _ => 0, fun _ => 0) [0, 1, 2]).2 (0 * 3 + 2))) = 0 := by
    norm_num [norm3, orthoPart, accumLoop, accumulateTri, meshUVdeg, meshNrm,
      Real.sqrt_zero]
  exact ⟨h1, h2,
    (computeTangents_zero_stays_zero meshPos meshNrm meshUVdeg [0, 1, 2] 0).1 h1,
    (computeTangents_zero_stays_zero meshPos meshNrm meshUVdeg [0, 1, 2] 0).2 h2⟩

/-! ## Articulated Transform Composer (utils.js: computeBarrelPivot)

The wgpu-matrix helpers used by the source: `mat4.translate(m, v) = m * T(v)`,
`mat4.rotateY(m, a) = m * RY(a)`, `mat4.rotate(m, [0,0,1], a) = m * RZ(a)`
(post-multiplication), and `vec4.transformMat4(v, m) = m * v`. -/

/-- The translation matrix `T(a,b,c)` of wgpu-matrix. -/
def translateM (a b c : ℝ) : Matrix (Fin 4) (Fin 4) ℝ :=
  Matrix.of ![![1, 0, 0, a], ![0, 1, 0, b], ![0, 0, 1, c], ![0, 0, 0, 1]]

/-- The Y-axis rotation matrix `RY(t)` of wgpu-matrix
(`x' = c*x + s*z`, `z' = -s*x + c*z`). -/
def rotateYM (t : ℝ) : Matrix (Fin 4) (Fin 4) ℝ :=
  Matrix.of ![![Real.cos t, 0, Real.sin t, 0], ![0, 1, 0, 0],
    ![-Real.sin t, 0, Real.cos t, 0], ![0, 0, 0, 1]]

/-- The Z-axis rotation matrix `RZ(t)` of wgpu-matrix (`mat4.rotate` with
axis `[0,0,1]`): `x' = c*x - s*y`, `y' = s*x + c*y`. -/
def rotateZM (t : ℝ) : Matrix (Fin 4) (Fin 4) ℝ :=
  Matrix.of ![![Real.cos t, -Real.sin t, 0, 0], ![Real.sin t, Real.cos t, 0, 0],
    ![0, 0, 1, 0], ![0, 0, 0, 1]]

/-- The articulated state read by `computeBarrelPivot` (spec §3). -/
structure TankState where
  position : ℝ × ℝ × ℝ
  rotation : ℝ
  turretRotation : ℝ
  barrelElevation : ℝ

/-- Embedding of `computeBarrelPivot(tankState, turretPivot, barrelPivot,
joinPivot)`: body transform (translate to `(position.x, 0.46, position.z)`,
yaw by `rotation`), turret transform (conjugated yaw by `turretRotation`
around the turret pivot translations), barrel transform (conjugated roll by
`barrelElevation` around the join pivot translations), applied to the local
end point `(barrelPivot.x, barrelPivot.y - 0.46, barrelPivot.z, 1)`. -/
def computeBarrelPivot (tankState : TankState)
    (turretPivot barrelPivot joinPivot : ℝ × ℝ × ℝ) : ℝ × ℝ × ℝ :=
  let M_body := (1 : Matrix (Fin 4) (Fin 4) ℝ)
    * translateM tankState.position.1 0.46 tankState.position.2.2
    * rotateYM tankState.rotation
  let M_turret := M_body
    * translateM (-turretPivot.1) (-turretPivot.2.1) (-turretPivot.2.2)
    * rotateYM tankState.turretRotation
    * translateM turretPivot.1 turretPivot.2.1 turretPivot.2.2
  let M_barrel := M_turret
    * translateM (-joinPivot.1) (-joinPivot.2.1) (-joinPivot.2.2)
    * rotateZM tankState.barrelElevation
    * translateM joinPivot.1 joinPivot.2.1 joinPivot.2.2
  let localEnd : Fin 4 → ℝ :=
    ![barrelPivot.1, barrelPivot.2.1 - 0.46, barrelPivot.2.2, 1]
  let worldEnd := M_barrel.mulVec localEnd
  (worldEnd 0, worldEnd 1, worldEnd 2)

/-! ### Action lemmas for the elementary transforms -/

/-- Action of the translation matrix on a homogeneous column vector. -/
lemma translateM_mulVec (a b c x y z w : ℝ) :
    (translateM a b c).mulVec ![x, y, z, w] = ![x + a * w, y + b * w, z + c * w, w] := by
  funext i
  fin_cases i <;>
    simp [translateM, Matrix.mulVec, Matrix.dotProduct, Fin.sum_univ_four]

/-- Action of the Y-rotation matrix on a homogeneous column vector. -/
lemma rotateYM_mulVec (t x y z w : ℝ) :
    (rotateYM t).mulVec ![x, y, z, w]
      = ![Real.cos t * x + Real.sin t * z, y, -Real.sin t * x + Real.cos t * z, w] := by
  funext i
  fin_cases i <;>
    simp [rotateYM, Matrix.mulVec, Matrix.dotProduct, Fin.sum_univ_four]

/-- Action of the Z-rotation matrix on a homogeneous column vector. -/
lemma rotateZM_mulVec (t x y z w : ℝ) :
    (rotateZM t).mulVec ![x, y, z, w]
      = ![Real.cos t * x - Real.sin t * y, Real.sin t * x + Real.cos t * y, z, w] := by
  funext i
  fin_cases i
  · simp [rotateZM, Matrix.mulVec, Matrix.dotProduct, Fin.sum_univ_four]
    ring
  · simp [rotateZM, Matrix.mulVec, Matrix.dotProduct, Fin.sum_univ_four]
  · simp [rotateZM, Matrix.mulVec, Matrix.dotProduct, Fin.sum_univ_four]
  · simp [rotateZM, Matrix.mulVec, Matrix.dotProduct, Fin.sum_univ_four]

/-! ### Claim theorems for the Composer -/

/-- C5: at the rest pose (`position = (0,0,0)`, all rotations zero, all
pivots at the origin) the Composer returns exactly
`(barrelPivot.x, barrelPivot.y, barrelPivot.z)`: the fixed height `0.46` of
the body transform cancels the `0.46` subtracted from the local end point. -/
theorem computeBarrelPivot_rest_pose (bpx bpy bpz : ℝ) :
    computeBarrelPivot ⟨(0, 0, 0), 0, 0, 0⟩ (0, 0, 0) (bpx, bpy, bpz) (0, 0, 0)
      = (bpx, bpy, bpz) := by
  simp [computeBarrelPivot, ← Matrix.mulVec_mulVec, Matrix.one_mulVec,
    translateM_mulVec, rotateYM_mulVec, rotateZM_mulVec,
    Real.cos_zero, Real.sin_zero]

/-- C8: the Composer reads only the `x` and `z` components of
`tankState.position` (the `y` slot of the body translation is the fixed
constant `0.46`), so two states differing only in `position.y` produce the
identical world point. -/
theorem computeBarrelPivot_ignores_position_y
    (px py pyAlt pz r tr be : ℝ) (tp bp jp : ℝ × ℝ × ℝ) :
    computeBarrelPivot ⟨(px, py, pz), r, tr, be⟩ tp bp jp
      = computeBarrelPivot ⟨(px, pyAlt, pz), r, tr, be⟩ tp bp jp := rfl

/-- C9 (counterexample): with `joinPivot = (0,0,0)` and zero barrel
elevation but `position = (1,0,0)` and `turretPivot = (2,0,0)`, turning the
turret by `π` does not negate the X coordinate: the world point X is `-3`
at `turretRotation = π` but `1` at `turretRotation = 0` (the code rotates
about `-turretPivot` in body space and the body translation offsets X). -/
theorem computeBarrelPivot_turret_pi_cex :
    ¬ ((computeBarrelPivot ⟨(1, 0, 0), 0, Real.pi, 0⟩ (2, 0, 0) (0, 0, 0) (0, 0, 0)).1
        = -(computeBarrelPivot ⟨(1, 0, 0), 0, 0, 0⟩ (2, 0, 0) (0, 0, 0) (0, 0, 0)).1
      ∧ (computeBarrelPivot ⟨(1, 0, 0), 0, Real.pi, 0⟩ (2, 0, 0) (0, 0, 0) (0, 0, 0)).2.2
        = -(computeBarrelPivot ⟨(1, 0, 0), 0, 0, 0⟩ (2, 0, 0) (0, 0, 0) (0, 0, 0)).2.2) := by
  intro h
  have e1 : (computeBarrelPivot ⟨(1, 0, 0), 0, Real.pi, 0⟩
      (2, 0, 0) (0, 0, 0) (0, 0, 0)).1 = -3 := by
    simp [computeBarrelPivot, ← Matrix.mulVec_mulVec, Matrix.one_mulVec,
      translateM_mulVec, rotateYM_mulVec, rotateZM_mulVec,
      Real.cos_pi, Real.sin_pi, Real.cos_zero, Real.sin_zero]
    norm_num
  have e2 : (computeBarrelPivot ⟨(1, 0, 0), 0, 0, 0⟩
      (2, 0, 0) (0, 0, 0) (0, 0, 0)).1 = 1 := by
    simp [computeBarrelPivot, ← Matrix.mulVec_mulVec, Matrix.one_mulVec,
      translateM_mulVec, rotateYM_mulVec, rotateZM_mulVec,
      Real.cos_zero, Real.sin_zero]
  rw [e1, e2] at h
  exact absurd h.1 (by norm_num)

/-- C9 (amended): with `joinPivot = (0,0,0)`, `barrelElevation = 0`, and
additionally `position.x = position.z = 0` and
`turretPivot.x = turretPivot.z = 0` (body yaw, `position.y`,
`turretPivot.y` and `barrelPivot` arbitrary), turning the turret by `π`
negates the X and Z coordinates of the returned world point relative to
`turretRotation = 0`. -/
theorem computeBarrelPivot_turret_pi_negates (py r tpy bpx bpy bpz : ℝ) :
    (computeBarrelPivot ⟨(0, py, 0), r, Real.pi, 0⟩ (0, tpy, 0)
        (bpx, bpy, bpz) (0, 0, 0)).1
      = -(computeBarrelPivot ⟨(0, py, 0), r, 0, 0⟩ (0, tpy, 0)
        (bpx, bpy, bpz) (0, 0, 0)).1
    ∧ (computeBarrelPivot ⟨(0, py, 0), r, Real.pi, 0⟩ (0, tpy, 0)
        (bpx, bpy, bpz) (0, 0, 0)).2.2
      = -(computeBarrelPivot ⟨(0, py, 0), r, 0, 0⟩ (0, tpy, 0)
        (bpx, bpy, bpz) (0, 0, 0)).2.2 := by
  constructor
  · simp [computeBarrelPivot, ← Matrix.mulVec_mulVec, Matrix.one_mulVec,
      translateM_mulVec, rotateYM_mulVec, rotateZM_mulVec,
      Real.cos_pi, Real.sin_pi, Real.cos_zero, Real.sin_zero]
    ring
  · simp [computeBarrelPivot, ← Matrix.mulVec_mulVec, Matrix.one_mulVec,
      translateM_mulVec, rotateYM_mulVec, rotateZM_mulVec,
      Real.cos_pi, Real.sin_pi, Real.cos_zero, Real.sin_zero]
    ring

end GraphicsLab
